import Mathlib

/-!
Verification of the TinyVM interpreter (a Rust rewrite of the tvm virtual
machine) against its natural-language specification.

The definitions below are a shallow embedding of the interpreter's core:
the typed instruction model (src/instruction.rs), the machine state and
stack (src/memory.rs), the dispatch loop (src/context.rs), the parser
(src/parser/*.rs), the lexer (src/lexer.rs) and the preprocessor
(src/preprocessor.rs).  Machine integers (Rust i32) are modelled as Int
with explicit two's-complement wrapping; Rust panics are modelled as a
distinct outcome constructor; fallible operations return Except.
-/

deriving instance DecidableEq for Except

namespace TinyVM

/-- The 17 registers, ordinals 0..=16 (src/instruction.rs `Register`). -/
inductive Register where
  | eax | ebx | ecx | edx | esi | edi | esp | ebp | eip
  | r08 | r09 | r10 | r11 | r12 | r13 | r14 | r15
deriving DecidableEq, Repr

/-- Read-only operand (src/instruction.rs `Source`): register, immediate value,
or data address. -/
inductive Source where
  | register (r : Register)
  | value (v : Int)
  | address (a : Int)
deriving DecidableEq, Repr

/-- Writable operand (src/instruction.rs `Target`): register or data address. -/
inductive Target where
  | register (r : Register)
  | address (a : Int)
deriving DecidableEq, Repr

/-- The typed instruction set (src/instruction.rs `Instruction`). -/
inductive Instruction where
  | nop
  | int
  | mov (t : Target) (s : Source)
  | push (s : Source)
  | pop (t : Target)
  | pushf
  | popf
  | inc (t : Target)
  | dec (t : Target)
  | add (t : Target) (s : Source)
  | sub (t : Target) (s : Source)
  | mul (t : Target) (s : Source)
  | div (t : Target) (s : Source)
  | mod (s1 : Source) (s2 : Source)
  | rem (t : Target)
  | not (t : Target)
  | xor (t : Target) (s : Source)
  | or (t : Target) (s : Source)
  | and (t : Target) (s : Source)
  | shl (t : Target) (s : Source)
  | shr (t : Target) (s : Source)
  | cmp (s1 : Source) (s2 : Source)
  | jmp (s : Source)
  | call (s : Source)
  | ret
  | je (s : Source)
  | jne (s : Source)
  | jg (s : Source)
  | jge (s : Source)
  | jl (s : Source)
  | jle (s : Source)
  | prn (s : Source)
deriving DecidableEq, Repr

/-- A loaded program (src/context.rs `Program`). -/
structure Program where
  instructions : List Instruction
  start_instruction_index : Int
deriving DecidableEq, Repr

/-- Runtime faults (src/context.rs `ExecutionError`).  Note the enum has
exactly these two variants; there is no arithmetic-fault variant. -/
inductive ExecutionError where
  | instructionOutOfRange (i : Int)
  | dataAddressOutOfRange (a : Int)
deriving DecidableEq, Repr

/-- Two's-complement wrap of an integer into the i32 range, modelling Rust
`as i32` casts and wrapping i32 arithmetic. -/
def wrap32 (n : Int) : Int := (n + 2 ^ 31) % 2 ^ 32 - 2 ^ 31

/-- The unsigned 32-bit representation of an i32 value. -/
def toU32 (n : Int) : Nat := (n % 2 ^ 32).toNat

/-- Bitwise AND on i32 values. -/
def and32 (a b : Int) : Int := wrap32 (Nat.land (toU32 a) (toU32 b))

/-- Bitwise OR on i32 values. -/
def or32 (a b : Int) : Int := wrap32 (Nat.lor (toU32 a) (toU32 b))

/-- Bitwise XOR on i32 values. -/
def xor32 (a b : Int) : Int := wrap32 (Nat.xor (toU32 a) (toU32 b))

/-- Bitwise complement on i32 values (two's complement). -/
def not32 (a : Int) : Int := -a - 1

/-- i32 shift left; the shift amount is masked to its low five bits as in
Rust release-mode `<<`. -/
def shl32 (a b : Int) : Int := wrap32 (a * 2 ^ (toU32 b % 32))

/-- i32 arithmetic shift right (sign-propagating), shift amount masked. -/
def shr32 (a b : Int) : Int := Int.fdiv a (2 ^ (toU32 b % 32))

/-- Length of `mem_space` in 32-bit words (MEMORY_SIZE = 64 MiB of bytes,
i.e. 16 Mi words; src/context.rs).  Data addresses index words. -/
def memLen : Int := 16777216

/-- Initial Esp/Ebp word index: `create_stack(STACK_SIZE)` places the stack
pointer STACK_SIZE = 2 MiB bytes = 524288 words above the base
(src/memory.rs `create_stack`). -/
def stackInit : Int := 524288

/-- The machine state (src/memory.rs `Memory`): flags, mod-remainder, the
linear word memory and the register file.  The Esp/Ebp pointer arithmetic of
the Rust code is modelled as word indices into `memSpace`. -/
structure Memory where
  flags : Int
  remainder : Int
  memSpace : Int → Int
  registers : Register → Int

/-- Fresh memory as built by `Context::new` (zeroed memory and registers,
then `create_stack`, which points Esp and Ebp at word index `stackInit`). -/
def Memory.new : Memory :=
  { flags := 0
    remainder := 0
    memSpace := fun _ => 0
    registers := fun r =>
      match r with
      | .esp => stackInit
      | .ebp => stackInit
      | _ => 0 }

def Memory.setReg (m : Memory) (r : Register) (v : Int) : Memory :=
  { m with registers := fun r' => if r' = r then v else m.registers r' }

def Memory.setMem (m : Memory) (a : Int) (v : Int) : Memory :=
  { m with memSpace := fun a' => if a' = a then v else m.memSpace a' }

/-- `Memory::get_current_instruction_index` (reads Eip). -/
def Memory.getIp (m : Memory) : Int := m.registers .eip

/-- `Memory::set_current_instruction_index` (writes Eip; the `as i32` cast
is the wrap). -/
def Memory.setIp (m : Memory) (v : Int) : Memory := m.setReg .eip (wrap32 v)

/-- `Memory::push_stack`: decrement the stack pointer by one word, then
store the item there.  Raw pointer arithmetic: no bounds check. -/
def Memory.pushStack (m : Memory) (item : Int) : Memory :=
  (m.setReg .esp (m.registers .esp - 1)).setMem (m.registers .esp - 1) item

/-- `Memory::pop_stack`: read the word at the stack pointer, increment the
stack pointer.  Returns the popped word and the new state. -/
def Memory.popStack (m : Memory) : Int × Memory :=
  (m.memSpace (m.registers .esp), m.setReg .esp (m.registers .esp + 1))

/-- The `read!` macro of `Context::step`: evaluate a source operand, with a
bounds check for data addresses. -/
def Memory.readSource (m : Memory) : Source → Except ExecutionError Int
  | .register r => .ok (m.registers r)
  | .value v => .ok v
  | .address a =>
    if a < 0 ∨ memLen ≤ a then .error (.dataAddressOutOfRange a)
    else .ok (m.memSpace a)

/-- The `readt!` macro of `Context::step`: evaluate a target operand as a
value, with a bounds check for data addresses. -/
def Memory.readTarget (m : Memory) : Target → Except ExecutionError Int
  | .register r => .ok (m.registers r)
  | .address a =>
    if a < 0 ∨ memLen ≤ a then .error (.dataAddressOutOfRange a)
    else .ok (m.memSpace a)

/-- Outcome of executing one instruction: a new state together with the
integers printed by `prn`, a returned `ExecutionError`, or a Rust panic
(which in the source aborts the program rather than returning an error). -/
inductive ExecOut where
  | ok (m : Memory) (out : List Int)
  | fault (e : ExecutionError)
  | panic

/-- Projection used to state theorems: the resulting memory, when the step
succeeded. -/
def ExecOut.memOf : ExecOut → Option Memory
  | .ok m _ => some m
  | _ => none

/-- Projection: the printed output of a successful step. -/
def ExecOut.outOf : ExecOut → Option (List Int)
  | .ok _ out => some out
  | _ => none

/-- The `write!(target, readt!(target) OP read!(source))` shape shared by the
binary arithmetic/bitwise arms of `Context::step`.  For an address target the
bounds check of the `write!` arm runs before anything else; then the target
value and the source are read and the wrapped result is stored. -/
def binOp (m : Memory) (t : Target) (s : Source) (f : Int → Int → Int) : ExecOut :=
  match t with
  | .register r =>
    match m.readSource s with
    | .error e => .fault e
    | .ok sv => .ok (m.setReg r (wrap32 (f (m.registers r) sv))) []
  | .address a =>
    if a < 0 ∨ memLen ≤ a then .fault (.dataAddressOutOfRange a)
    else
      match m.readSource s with
      | .error e => .fault e
      | .ok sv => .ok (m.setMem a (wrap32 (f (m.memSpace a) sv))) []

/-- The `write!(target, f (readt!(target)))` shape (inc, dec, not). -/
def unaryOp (m : Memory) (t : Target) (f : Int → Int) : ExecOut :=
  match t with
  | .register r => .ok (m.setReg r (wrap32 (f (m.registers r)))) []
  | .address a =>
    if a < 0 ∨ memLen ≤ a then .fault (.dataAddressOutOfRange a)
    else .ok (m.setMem a (wrap32 (f (m.memSpace a)))) []

/-- The `write!(target, v)` shape for an already-computed value (rem). -/
def writeVal (m : Memory) (t : Target) (v : Int) : ExecOut :=
  match t with
  | .register r => .ok (m.setReg r (wrap32 v)) []
  | .address a =>
    if a < 0 ∨ memLen ≤ a then .fault (.dataAddressOutOfRange a)
    else .ok (m.setMem a (wrap32 v)) []

/-- The `Div` arm: Rust `readt!(target) / read!(source)` panics when the
divisor is zero or on `i32::MIN / -1`; otherwise it truncates toward zero. -/
def divArm (m : Memory) (t : Target) (s : Source) : ExecOut :=
  match t with
  | .register r =>
    match m.readSource s with
    | .error e => .fault e
    | .ok sv =>
      if sv = 0 ∨ (m.registers r = -(2 ^ 31) ∧ sv = -1) then .panic
      else .ok (m.setReg r (wrap32 (Int.tdiv (m.registers r) sv))) []
  | .address a =>
    if a < 0 ∨ memLen ≤ a then .fault (.dataAddressOutOfRange a)
    else
      match m.readSource s with
      | .error e => .fault e
      | .ok sv =>
        if sv = 0 ∨ (m.memSpace a = -(2 ^ 31) ∧ sv = -1) then .panic
        else .ok (m.setMem a (wrap32 (Int.tdiv (m.memSpace a) sv))) []

/-- The `Mod` arm: `remainder ← s1 % s2`; Rust `%` panics when the divisor
is zero or on `i32::MIN % -1`. -/
def modArm (m : Memory) (s1 s2 : Source) : ExecOut :=
  match m.readSource s1 with
  | .error e => .fault e
  | .ok v1 =>
    match m.readSource s2 with
    | .error e => .fault e
    | .ok v2 =>
      if v2 = 0 ∨ (v1 = -(2 ^ 31) ∧ v2 = -1) then .panic
      else .ok { m with remainder := wrap32 (Int.tmod v1 v2) } []

/-- The `jump!` macro: `set_current_instruction_index(read!(source) - 1)`,
executed only when the branch condition holds.  The source operand is read
only in that case. -/
def jumpIf (m : Memory) (cond : Bool) (s : Source) : ExecOut :=
  if cond then
    match m.readSource s with
    | .error e => .fault e
    | .ok v => .ok (m.setIp (v - 1)) []
  else .ok m []

/-- One instruction's action, before the dispatch loop's instruction-pointer
increment (the body of the big `match` of `Context::step`). -/
def execInstr (m : Memory) : Instruction → ExecOut
  | .nop => .ok m []
  | .int => .ok m []
  | .mov t s =>
    match t with
    | .register r =>
      match m.readSource s with
      | .error e => .fault e
      | .ok v => .ok (m.setReg r (wrap32 v)) []
    | .address a =>
      if a < 0 ∨ memLen ≤ a then .fault (.dataAddressOutOfRange a)
      else
        match m.readSource s with
        | .error e => .fault e
        | .ok v => .ok (m.setMem a (wrap32 v)) []
  | .push s =>
    match m.readSource s with
    | .error e => .fault e
    | .ok v => .ok (m.pushStack (wrap32 v)) []
  | .pop t =>
    match t with
    | .register r =>
      let (v, m1) := m.popStack
      .ok (m1.setReg r (wrap32 v)) []
    | .address a =>
      if a < 0 ∨ memLen ≤ a then .fault (.dataAddressOutOfRange a)
      else
        let (v, m1) := m.popStack
        .ok (m1.setMem a (wrap32 v)) []
  | .pushf => .ok (m.pushStack m.flags) []
  | .popf =>
    let (v, m1) := m.popStack
    .ok { m1 with flags := v } []
  | .inc t => unaryOp m t (· + 1)
  | .dec t => unaryOp m t (· - 1)
  | .add t s => binOp m t s (· + ·)
  | .sub t s => binOp m t s (· - ·)
  | .mul t s => binOp m t s (· * ·)
  | .div t s => divArm m t s
  | .mod s1 s2 => modArm m s1 s2
  | .rem t => writeVal m t m.remainder
  | .not t => unaryOp m t not32
  | .xor t s => binOp m t s xor32
  | .or t s => binOp m t s or32
  | .and t s => binOp m t s and32
  | .shl t s => binOp m t s shl32
  | .shr t s => binOp m t s shr32
  | .cmp s1 s2 =>
    match m.readSource s1 with
    | .error e => .fault e
    | .ok v1 =>
      match m.readSource s2 with
      | .error e => .fault e
      | .ok v2 =>
        .ok { m with
              flags := or32 (if v1 = v2 then 1 else 0) (if v1 > v2 then 2 else 0) } []
  | .jmp s => jumpIf m true s
  | .call s =>
    let m1 := m.pushStack (wrap32 m.getIp)
    match m1.readSource s with
    | .error e => .fault e
    | .ok v => .ok (m1.setIp (v - 1)) []
  | .ret =>
    let (v, m1) := m.popStack
    .ok (m1.setIp v) []
  | .je s => jumpIf m (and32 m.flags 1 ≠ 0) s
  | .jne s => jumpIf m (and32 m.flags 1 = 0) s
  | .jg s => jumpIf m (and32 m.flags 2 ≠ 0) s
  | .jge s => jumpIf m (and32 m.flags 3 ≠ 0) s
  | .jl s => jumpIf m (and32 m.flags 3 = 0) s
  | .jle s => jumpIf m (and32 m.flags 2 = 0) s
  | .prn s =>
    match m.readSource s with
    | .error e => .fault e
    | .ok v => .ok m [v]

/-- `Context::step`: bounds-check the instruction pointer, execute the
current instruction, then increment the instruction pointer. -/
def step (p : Program) (m : Memory) : ExecOut :=
  if m.getIp < 0 ∨ (p.instructions.length : Int) ≤ m.getIp then
    .fault (.instructionOutOfRange m.getIp)
  else
    match execInstr m (p.instructions.getD m.getIp.toNat .nop) with
    | .ok m2 out => .ok (m2.setIp (m2.getIp + 1)) out
    | x => x

/-- Outcome of `Context::run`: normal termination (final memory and printed
output), a returned `ExecutionError` (with the memory at the fault), a Rust
panic, or fuel exhaustion (the Rust loop simply keeps running). -/
inductive RunOut where
  | ok (m : Memory) (out : List Int)
  | fault (e : ExecutionError) (m : Memory)
  | panic
  | fuelOut

/-- Projection: the printed output of a normally-terminated run. -/
def RunOut.outOf : RunOut → Option (List Int)
  | .ok _ out => some out
  | _ => none

/-- Projection: the error of a failed run. -/
def RunOut.errOf : RunOut → Option ExecutionError
  | .fault e _ => some e
  | _ => none

/-- The dispatch loop of `Context::run`, with fuel: read the instruction
pointer; if it equals the instruction count, terminate normally; otherwise
perform one step and continue. -/
def run (p : Program) : Nat → Memory → RunOut
  | 0, _ => .fuelOut
  | fuel + 1, m =>
    if m.getIp = (p.instructions.length : Int) then .ok m []
    else
      match step p m with
      | .ok m' out =>
        match run p fuel m' with
        | .ok m2 out2 => .ok m2 (out ++ out2)
        | x => x
      | .fault e => .fault e m
      | .panic => .panic

/-- A `Context` (src/context.rs): the loaded program together with the
memory, which is created once by `Context::new` and reused by every
subsequent `run()`. -/
structure Context where
  program : Program
  memory : Memory

/-- `Context::new` followed by `load`: fresh memory with the stack set up,
plus the loaded program. -/
def Context.new (p : Program) : Context := ⟨p, Memory.new⟩

/-- `Context::run`: set Eip to `start_instruction_index`, then loop.  All
other memory contents are left as they are.  Returns the run outcome and the
context as it is afterwards (for a normal or faulting termination the
mutated memory persists inside the context; a panic unwinds, so no
post-state is observable and the pre-run context is returned unchanged). -/
def Context.runFuel (fuel : Nat) (c : Context) : RunOut × Context :=
  let m0 := c.memory.setIp c.program.start_instruction_index
  match run c.program fuel m0 with
  | .ok m out => (.ok m out, ⟨c.program, m⟩)
  | .fault e m => (.fault e m, ⟨c.program, m⟩)
  | .panic => (.panic, c)
  | .fuelOut => (.fuelOut, c)

/-! Arithmetic helper lemmas about the i32 wrap. -/

lemma wrap32_id {a : Int} (h1 : -(2 ^ 31) ≤ a) (h2 : a < 2 ^ 31) : wrap32 a = a := by
  unfold wrap32; omega

lemma wrap32_wrap32_add (a b : Int) : wrap32 (wrap32 a + b) = wrap32 (a + b) := by
  unfold wrap32; omega

lemma wrap32_chain {v : Int} (h1 : -(2 ^ 31) ≤ v) (h2 : v < 2 ^ 31) :
    wrap32 (wrap32 (v - 1) + 1) = v := by
  rw [wrap32_wrap32_add]
  have : v - 1 + 1 = v := by omega
  rw [this, wrap32_id h1 h2]

/-! Small unfolding lemmas about the machine state. -/

lemma registers_setReg (m : Memory) (r : Register) (v : Int) (r' : Register) :
    (m.setReg r v).registers r' = if r' = r then v else m.registers r' := rfl

lemma memSpace_setReg (m : Memory) (r : Register) (v : Int) :
    (m.setReg r v).memSpace = m.memSpace := rfl

lemma registers_setMem (m : Memory) (a v : Int) :
    (m.setMem a v).registers = m.registers := rfl

lemma memSpace_setMem (m : Memory) (a v : Int) (a' : Int) :
    (m.setMem a v).memSpace a' = if a' = a then v else m.memSpace a' := rfl

/-- Full characterization of a `call` step (shared helper): the pushed word is
the wrapped current instruction index, `jump!` stores v - 1, and the loop
increment adds one. -/
lemma step_call_eq (p : Program) (m : Memory) (s : Source) (v : Int)
    (hip0 : 0 ≤ m.getIp) (hlt : m.getIp < (p.instructions.length : Int))
    (hi : p.instructions.getD m.getIp.toNat .nop = .call s)
    (hv : (m.pushStack (wrap32 m.getIp)).readSource s = .ok v) :
    step p m = .ok (((m.pushStack (wrap32 m.getIp)).setIp (v - 1)).setIp
      (wrap32 (v - 1) + 1)) [] := by
  unfold step
  rw [if_neg (by omega), hi]
  simp only [execInstr]
  rw [hv]
  rfl

/-- Full characterization of a `ret` step (shared helper): the popped word v
is written to Eip and the loop increment adds one. -/
lemma step_ret_eq (p : Program) (m : Memory)
    (hip0 : 0 ≤ m.getIp) (hlt : m.getIp < (p.instructions.length : Int))
    (hi : p.instructions.getD m.getIp.toNat .nop = .ret) :
    step p m = .ok (((m.setReg .esp (m.registers .esp + 1)).setIp
        (m.memSpace (m.registers .esp))).setIp
        (wrap32 (m.memSpace (m.registers .esp)) + 1)) [] := by
  unfold step
  rw [if_neg (by omega), hi]
  rfl

/-- C1, counterexample.  For the program `[call 0]` executed from fresh memory
(so ip = 0), the step decrements Esp by one and sets Eip to the value 0 read
from the operand, but the pushed word is 0 — the call instruction's own index
ip — whereas the claim states the pushed word equals ip + 1 = 1. -/
theorem call_push_counterexample :
    (step ⟨[.call (.value 0)], 0⟩ Memory.new).memOf.map
        (fun m' => (m'.registers .esp, m'.memSpace (stackInit - 1), m'.registers .eip))
      = some (stackInit - 1, 0, 0) ∧ ((0 : Int) ≠ 0 + 1) := by
  exact ⟨by decide, by decide⟩

/-- C1, amended.  Executing `call s` at instruction pointer ip pushes the
value ip itself (not ip + 1): Esp is decremented by one, the pushed word
equals ip, and Eip ends up at the value v read from s (the `jump!` macro
stores v - 1 and the dispatch loop's increment adds the 1 back). -/
theorem call_step_characterization
    (p : Program) (m : Memory) (s : Source) (v : Int)
    (hip0 : 0 ≤ m.getIp) (hlt : m.getIp < (p.instructions.length : Int))
    (hlen : (p.instructions.length : Int) < 2 ^ 31)
    (hi : p.instructions.getD m.getIp.toNat .nop = .call s)
    (hv : (m.pushStack (wrap32 m.getIp)).readSource s = .ok v)
    (hv1 : -(2 ^ 31) ≤ v) (hv2 : v < 2 ^ 31) :
    (step p m).memOf.map
        (fun m' => (m'.registers .esp, m'.memSpace (m.registers .esp - 1), m'.registers .eip))
      = some (m.registers .esp - 1, m.getIp, v) := by
  have h1 : (0 : Int) ≤ m.registers .eip := hip0
  have h2 : m.registers .eip < (p.instructions.length : Int) := hlt
  have hwid : wrap32 (m.registers .eip) = m.registers .eip :=
    wrap32_id (by omega) (by omega)
  unfold step
  rw [if_neg (by omega), hi]
  simp only [execInstr]
  rw [hv]
  simp only [ExecOut.memOf, Option.map_some', Option.some.injEq, Memory.setIp,
    Memory.pushStack, Memory.getIp, registers_setReg, memSpace_setReg,
    registers_setMem, memSpace_setMem, Prod.mk.injEq, hwid,
    wrap32_chain hv1 hv2]
  simp only [eq_false (show ¬(Register.esp = Register.eip) by decide),
    eq_false (show ¬(Register.eip = Register.esp) by decide), if_true, if_false,
    hwid, wrap32_chain hv1 hv2, and_self]

/-- C1, witness for the amended theorem at the concrete program `[call 0]`
started from fresh memory. -/
theorem call_step_characterization_witness :
    (step ⟨[.call (.value 0)], 0⟩ Memory.new).memOf.map
        (fun m' => (m'.registers .esp, m'.memSpace (Memory.new.registers .esp - 1),
          m'.registers .eip))
      = some (Memory.new.registers .esp - 1, Memory.new.getIp, 0) :=
  call_step_characterization ⟨[.call (.value 0)], 0⟩ Memory.new (.value 0) 0
    (by decide) (by decide) (by decide) (by decide) rfl (by decide) (by decide)

/-- C2, counterexample.  For the program `[ret]` executed from fresh memory,
the popped word is v = 0 (word at the initial stack pointer) and Esp is
incremented by one, but the resulting Eip is 1 = v + 1, not v as the claim
states (the dispatch loop increments Eip after the `Ret` arm stored v). -/
theorem ret_ip_counterexample :
    (step ⟨[.ret], 0⟩ Memory.new).memOf.map
        (fun m' => (m'.registers .esp, m'.memSpace stackInit, m'.registers .eip))
      = some (stackInit + 1, 0, 1) ∧ ((1 : Int) ≠ 0) := by
  exact ⟨by decide, by decide⟩

/-- C2, amended.  Executing `ret` pops one word v from the stack (Esp is
incremented by one) and the resulting Eip equals v + 1 (as a wrapping i32):
the `Ret` arm writes v to Eip and the dispatch loop's unconditional
post-increment then adds one. -/
theorem ret_step_characterization
    (p : Program) (m : Memory)
    (hip0 : 0 ≤ m.getIp) (hlt : m.getIp < (p.instructions.length : Int))
    (hi : p.instructions.getD m.getIp.toNat .nop = .ret) :
    (step p m).memOf.map (fun m' => (m'.registers .esp, m'.registers .eip))
      = some (m.registers .esp + 1, wrap32 (m.memSpace (m.registers .esp) + 1)) := by
  unfold step
  rw [if_neg (by omega), hi]
  simp only [execInstr, Memory.popStack]
  simp only [ExecOut.memOf, Option.map_some', Option.some.injEq, Memory.setIp,
    Memory.getIp, registers_setReg, Prod.mk.injEq]
  simp only [eq_false (show ¬(Register.esp = Register.eip) by decide),
    eq_false (show ¬(Register.eip = Register.esp) by decide), if_true, if_false,
    wrap32_wrap32_add, and_self]

/-- C2, witness for the amended theorem at the concrete program `[ret]`
started from fresh memory. -/
theorem ret_step_characterization_witness :
    (step ⟨[.ret], 0⟩ Memory.new).memOf.map
        (fun m' => (m'.registers .esp, m'.registers .eip))
      = some (Memory.new.registers .esp + 1,
          wrap32 (Memory.new.memSpace (Memory.new.registers .esp) + 1)) :=
  ret_step_characterization ⟨[.ret], 0⟩ Memory.new (by decide) (by decide) (by decide)

/-- C3.  Call/ret duality: if the instruction at index ip is `call s`, the
operand s evaluates to L, and the instruction at index L is `ret`, then
(1) the call step pushes the word ip at Esp - 1 and transfers control to L,
and (2) from any later state that points at that `ret` and whose stack
pointer and pushed word are unchanged (no stack manipulation in between),
the ret step transfers control to ip + 1, the instruction textually after
the call. -/
theorem call_ret_duality
    (p : Program) (m : Memory) (s : Source) (L : Int)
    (hip0 : 0 ≤ m.getIp) (hlt : m.getIp < (p.instructions.length : Int))
    (hlen : (p.instructions.length : Int) < 2 ^ 31)
    (hi : p.instructions.getD m.getIp.toNat .nop = .call s)
    (hv : (m.pushStack (wrap32 m.getIp)).readSource s = .ok L)
    (hL0 : 0 ≤ L) (hLlt : L < (p.instructions.length : Int))
    (hiL : p.instructions.getD L.toNat .nop = .ret) :
    ((step p m).memOf.map
        (fun m' => (m'.registers .esp, m'.memSpace (m.registers .esp - 1),
          m'.registers .eip))
      = some (m.registers .esp - 1, m.getIp, L))
    ∧ ∀ m2 : Memory,
        m2.registers .eip = L →
        m2.registers .esp = m.registers .esp - 1 →
        m2.memSpace (m.registers .esp - 1) = m.getIp →
        (step p m2).memOf.map (fun m3 => m3.registers .eip) = some (m.getIp + 1) := by
  have h1' : (0 : Int) ≤ m.registers .eip := hip0
  have h2' : m.registers .eip < (p.instructions.length : Int) := hlt
  have hwid : wrap32 (m.registers .eip) = m.registers .eip :=
    wrap32_id (by omega) (by omega)
  constructor
  · rw [step_call_eq p m s L hip0 hlt hi hv]
    simp only [ExecOut.memOf, Option.map_some', Option.some.injEq, Memory.setIp,
      Memory.pushStack, Memory.getIp, registers_setReg, memSpace_setReg,
      registers_setMem, memSpace_setMem, Prod.mk.injEq, hwid]
    simp only [eq_false (show ¬(Register.esp = Register.eip) by decide),
      eq_false (show ¬(Register.eip = Register.esp) by decide), if_true, if_false,
      hwid, wrap32_chain (show -(2 ^ 31) ≤ L by omega) (show L < 2 ^ 31 by omega),
      and_self]
  · intro m2 hm1 hm2 hm3
    have hgi : m2.getIp = L := hm1
    rw [step_ret_eq p m2 (by rw [hgi]; omega) (by rw [hgi]; omega)
      (by show p.instructions.getD m2.getIp.toNat .nop = .ret; rw [hgi]; exact hiL)]
    simp only [ExecOut.memOf, Option.map_some', Option.some.injEq, Memory.setIp,
      registers_setReg]
    simp only [eq_false (show ¬(Register.eip = Register.esp) by decide), if_true,
      if_false, memSpace_setReg]
    rw [hm2, hm3]
    show wrap32 (wrap32 m.getIp + 1) = m.getIp + 1
    have hip : wrap32 m.getIp = m.getIp := hwid
    rw [hip, wrap32_id (by omega) (by omega)]

/-- C3, witness at the program `[call 2, nop, ret]` run from fresh memory:
the call at index 0 jumps to the ret at index 2, and the ret comes back to
index 1. -/
theorem call_ret_duality_witness :
    ((step ⟨[.call (.value 2), .nop, .ret], 0⟩ Memory.new).memOf.map
        (fun m' => (m'.registers .esp, m'.memSpace (Memory.new.registers .esp - 1),
          m'.registers .eip))
      = some (Memory.new.registers .esp - 1, Memory.new.getIp, 2))
    ∧ ((step ⟨[.call (.value 2), .nop, .ret], 0⟩
          (((Memory.new.pushStack (wrap32 Memory.new.getIp)).setIp (2 - 1)).setIp
            (wrap32 (2 - 1) + 1))).memOf.map (fun m3 => m3.registers .eip)
      = some (Memory.new.getIp + 1)) := by
  have h := call_ret_duality ⟨[.call (.value 2), .nop, .ret], 0⟩ Memory.new
    (.value 2) 2 (by decide) (by decide) (by decide) (by decide) rfl (by decide)
    (by decide) (by decide)
  exact ⟨h.1, h.2 _ (by decide) (by decide) (by decide)⟩

/-- C4, counterexample.  Executing `div eax, 0` from fresh memory produces
the `.panic` outcome (the Rust divide panics), which is a constructor
distinct from every `.fault e` and from `.ok`: no `ExecutionError` value is
returned at all — and indeed the `ExecutionError` enum of the code has no
`ArithmeticFault` variant to return. -/
theorem div_zero_counterexample :
    step ⟨[.div (.register .eax) (.value 0)], 0⟩ Memory.new = .panic := by rfl

/-- C4, amended.  When the current instruction is `div t, s` or `mod s1, s2`
and the divisor evaluates to zero (the other operands reading successfully),
the step is a host arithmetic panic — an abort, not a returned
`ExecutionError` (whose type has no `ArithmeticFault` variant). -/
theorem div_mod_by_zero_panics
    (p : Program) (m : Memory)
    (hip0 : 0 ≤ m.getIp) (hlt : m.getIp < (p.instructions.length : Int)) :
    (∀ t s tv, p.instructions.getD m.getIp.toNat .nop = .div t s →
      m.readTarget t = .ok tv → m.readSource s = .ok 0 → step p m = .panic)
    ∧ (∀ s1 s2 v1, p.instructions.getD m.getIp.toNat .nop = .mod s1 s2 →
      m.readSource s1 = .ok v1 → m.readSource s2 = .ok 0 → step p m = .panic) := by
  constructor
  · intro t s tv hi ht hs
    unfold step
    rw [if_neg (by omega), hi]
    cases t with
    | register r =>
      simp only [execInstr, divArm]
      rw [hs]
      simp
    | address a =>
      simp only [Memory.readTarget] at ht
      by_cases hc : a < 0 ∨ memLen ≤ a
      · rw [if_pos hc] at ht; cases ht
      · simp only [execInstr, divArm]
        rw [if_neg hc, hs]
        simp
  · intro s1 s2 v1 hi h1 h2
    unfold step
    rw [if_neg (by omega), hi]
    simp only [execInstr, modArm]
    rw [h1, h2]
    simp

/-- C4, witness: the amended theorem applied to the concrete programs
`[div eax, 0]` and `[mod 7, 0]` from fresh memory. -/
theorem div_mod_by_zero_panics_witness :
    step ⟨[.div (.register .eax) (.value 0)], 0⟩ Memory.new = .panic
    ∧ step ⟨[.mod (.value 7) (.value 0)], 0⟩ Memory.new = .panic := by
  refine ⟨(div_mod_by_zero_panics ⟨[.div (.register .eax) (.value 0)], 0⟩
      Memory.new (by decide) (by decide)).1 (.register .eax) (.value 0) 0
      (by decide) rfl rfl,
    (div_mod_by_zero_panics ⟨[.mod (.value 7) (.value 0)], 0⟩
      Memory.new (by decide) (by decide)).2 (.value 7) (.value 0) 7
      (by decide) rfl rfl⟩

/-- C6.  The dispatch loop: (1) whenever at the top of the loop the
instruction pointer is negative or exceeds the instruction count, the run
fails with `InstructionOutOfRange(ip)`; (2) whenever it equals the
instruction count, the run terminates normally; and (3) a run can terminate
normally only with the instruction pointer equal to the instruction count. -/
theorem run_termination_and_bounds :
    (∀ (p : Program) (fuel : Nat) (m : Memory),
      (m.getIp < 0 ∨ (p.instructions.length : Int) < m.getIp) →
      run p (fuel + 1) m = .fault (.instructionOutOfRange m.getIp) m)
    ∧ (∀ (p : Program) (fuel : Nat) (m : Memory),
      m.getIp = (p.instructions.length : Int) → run p (fuel + 1) m = .ok m [])
    ∧ (∀ (p : Program) (fuel : Nat) (m m' : Memory) (out : List Int),
      run p fuel m = .ok m' out → m'.getIp = (p.instructions.length : Int)) := by
  refine ⟨?_, ?_, ?_⟩
  · intro p fuel m h
    have hs : step p m = .fault (.instructionOutOfRange m.getIp) := by
      unfold step
      rw [if_pos (by omega)]
    simp only [run, if_neg (show ¬(m.getIp = (p.instructions.length : Int)) by omega), hs]
  · intro p fuel m h
    simp only [run, if_pos h]
  · intro p fuel
    induction fuel with
    | zero =>
      intro m m' out h
      simp only [run] at h
      cases h
    | succ n ih =>
      intro m m' out h
      simp only [run] at h
      by_cases he : m.getIp = (p.instructions.length : Int)
      · rw [if_pos he] at h
        cases h
        exact he
      · rw [if_neg he] at h
        cases hs : step p m with
        | ok m1 out1 =>
          rw [hs] at h
          dsimp only at h
          cases hr : run p n m1 with
          | ok m2 out2 =>
            rw [hr] at h
            dsimp only at h
            cases h
            exact ih m1 _ _ hr
          | fault e mm => rw [hr] at h; cases h
          | panic => rw [hr] at h; cases h
          | fuelOut => rw [hr] at h; cases h
        | fault e => rw [hs] at h; cases h
        | panic => rw [hs] at h; cases h

/-- C6, witness: part (1) at a state whose Eip = 2 exceeds the single
instruction, part (2) and (3) at the empty program, whose fresh memory
already points at the end. -/
theorem run_termination_and_bounds_witness :
    (run ⟨[.nop], 0⟩ 1 (Memory.new.setReg .eip 2)
      = .fault (.instructionOutOfRange (Memory.new.setReg .eip 2).getIp)
          (Memory.new.setReg .eip 2))
    ∧ (run ⟨[], 0⟩ 1 Memory.new = .ok Memory.new [])
    ∧ Memory.new.getIp = ((⟨[], 0⟩ : Program).instructions.length : Int) :=
  ⟨run_termination_and_bounds.1 ⟨[.nop], 0⟩ 0 (Memory.new.setReg .eip 2) (by decide),
    run_termination_and_bounds.2.1 ⟨[], 0⟩ 0 Memory.new (by decide),
    run_termination_and_bounds.2.2 ⟨[], 0⟩ 1 Memory.new Memory.new [] rfl⟩

/-- C5, counterexample.  For the program `[add eax, 1; prn eax]`, a first
`run()` on a fresh context prints `[1]`, but a second `run()` on the same
context prints `[2]`: the context's memory (here the register eax) is not
reset between runs, so the two outputs are not bit-identical. -/
theorem rerun_output_counterexample :
    ((Context.runFuel 5 (Context.new
        ⟨[.add (.register .eax) (.value 1), .prn (.register .eax)], 0⟩)).1.outOf
      = some [1])
    ∧ ((Context.runFuel 5 (Context.runFuel 5 (Context.new
        ⟨[.add (.register .eax) (.value 1), .prn (.register .eax)], 0⟩)).2).1.outOf
      = some [2])
    ∧ (some [(1 : Int)] ≠ some [2]) :=
  ⟨by decide, by decide, by decide⟩

/-- C5, amended.  `run()` does not start from a fresh `Memory`: it runs on
the context's current memory with only Eip reset to
`start_instruction_index`, and on normal termination the final memory stays
in the context.  Hence a second `run()` on the same context continues from
the first run's final memory (a run is still a deterministic function of
program and starting memory, but two sequential runs need not agree). -/
theorem run_persists_memory
    (fuel : Nat) (c : Context) (m : Memory) (out : List Int)
    (h : (Context.runFuel fuel c).1 = .ok m out) :
    (Context.runFuel fuel c).2 = ⟨c.program, m⟩
    ∧ (Context.runFuel fuel c).1
      = run c.program fuel (c.memory.setIp c.program.start_instruction_index) := by
  simp only [Context.runFuel] at h ⊢
  cases hr : run c.program fuel (c.memory.setIp c.program.start_instruction_index) with
  | ok m2 out2 =>
    rw [hr] at h
    dsimp only at h
    cases h
    exact ⟨rfl, rfl⟩
  | fault e mm => rw [hr] at h; cases h
  | panic => rw [hr] at h; cases h
  | fuelOut => rw [hr] at h; cases h

/-- C5, witness: the amended theorem at the empty program on a fresh
context. -/
theorem run_persists_memory_witness :
    (Context.runFuel 1 (Context.new ⟨[], 0⟩)).2
      = ⟨(⟨[], 0⟩ : Program), Memory.new.setIp 0⟩
    ∧ (Context.runFuel 1 (Context.new ⟨[], 0⟩)).1
      = run (⟨[], 0⟩ : Program) 1 ((Context.new ⟨[], 0⟩).memory.setIp
          (⟨[], 0⟩ : Program).start_instruction_index) :=
  run_persists_memory 1 (Context.new ⟨[], 0⟩) (Memory.new.setIp 0) [] rfl

lemma getIp_setIp (m : Memory) (w : Int) : (m.setIp w).getIp = wrap32 w := by
  simp [Memory.setIp, Memory.getIp, registers_setReg]

lemma flags_setReg (m : Memory) (r : Register) (v : Int) :
    (m.setReg r v).flags = m.flags := rfl

lemma flags_setIp (m : Memory) (w : Int) : (m.setIp w).flags = m.flags := rfl

/-- Shared helper: evaluation of a conditional-jump step whose arm is
`jumpIf m c s`.  When the condition holds, Eip ends at the operand value;
when it does not, Eip ends at ip + 1. -/
lemma step_jump_eval (p : Program) (m : Memory) (s : Source) (c : Bool) (v : Int)
    (hip0 : 0 ≤ m.getIp) (hlt : m.getIp < (p.instructions.length : Int))
    (hlen : (p.instructions.length : Int) < 2 ^ 31)
    (hex : execInstr m (p.instructions.getD m.getIp.toNat .nop) = jumpIf m c s) :
    (c = true → m.readSource s = .ok v → -(2 ^ 31) ≤ v → v < 2 ^ 31 →
      (step p m).memOf.map (fun m' => m'.getIp) = some v)
    ∧ (c = false →
      (step p m).memOf.map (fun m' => m'.getIp) = some (m.getIp + 1)) := by
  constructor
  · intro hc hv hv1 hv2
    subst hc
    unfold step
    rw [if_neg (by omega), hex]
    simp only [jumpIf, if_true]
    rw [hv]
    dsimp only
    simp only [ExecOut.memOf, Option.map_some', Option.some.injEq, getIp_setIp]
    exact wrap32_chain hv1 hv2
  · intro hc
    subst hc
    unfold step
    rw [if_neg (by omega), hex]
    simp only [jumpIf, Bool.false_eq_true, if_false]
    simp only [ExecOut.memOf, Option.map_some', Option.some.injEq, getIp_setIp]
    exact wrap32_id (by omega) (by omega)

/-- C7.  (1) `cmp s1, s2` sets flags to
`(s1 == s2 ? 1 : 0) | (s1 > s2 ? 2 : 0)`; and for every flags value
(arbitrary, e.g. injected by `popf`): (2) `jge s` branches exactly when
`flags & 3` is non-zero, and (3) `jl s` branches exactly when `flags & 3`
is zero (otherwise Eip moves to ip + 1). -/
theorem cmp_jge_jl_flags
    (p : Program) (m : Memory)
    (hip0 : 0 ≤ m.getIp) (hlt : m.getIp < (p.instructions.length : Int))
    (hlen : (p.instructions.length : Int) < 2 ^ 31) :
    (∀ s1 s2 v1 v2, p.instructions.getD m.getIp.toNat .nop = .cmp s1 s2 →
      m.readSource s1 = .ok v1 → m.readSource s2 = .ok v2 →
      (step p m).memOf.map (fun m' => m'.flags)
        = some (or32 (if v1 = v2 then 1 else 0) (if v1 > v2 then 2 else 0)))
    ∧ (∀ s v, p.instructions.getD m.getIp.toNat .nop = .jge s →
      ((and32 m.flags 3 ≠ 0 → m.readSource s = .ok v → -(2 ^ 31) ≤ v → v < 2 ^ 31 →
        (step p m).memOf.map (fun m' => m'.getIp) = some v)
      ∧ (and32 m.flags 3 = 0 →
        (step p m).memOf.map (fun m' => m'.getIp) = some (m.getIp + 1))))
    ∧ (∀ s v, p.instructions.getD m.getIp.toNat .nop = .jl s →
      ((and32 m.flags 3 = 0 → m.readSource s = .ok v → -(2 ^ 31) ≤ v → v < 2 ^ 31 →
        (step p m).memOf.map (fun m' => m'.getIp) = some v)
      ∧ (and32 m.flags 3 ≠ 0 →
        (step p m).memOf.map (fun m' => m'.getIp) = some (m.getIp + 1)))) := by
  refine ⟨?_, ?_, ?_⟩
  · intro s1 s2 v1 v2 hi h1 h2
    unfold step
    rw [if_neg (by omega), hi]
    simp only [execInstr]
    rw [h1]
    dsimp only
    rw [h2]
    dsimp only
    simp only [ExecOut.memOf, Option.map_some', Option.some.injEq, flags_setIp]
  · intro s v hi
    have hex : execInstr m (p.instructions.getD m.getIp.toNat .nop)
        = jumpIf m (decide (and32 m.flags 3 ≠ 0)) s := by rw [hi]; rfl
    constructor
    · intro hc hv hv1 hv2
      exact (step_jump_eval p m s _ v hip0 hlt hlen hex).1 (decide_eq_true hc) hv hv1 hv2
    · intro hc
      exact (step_jump_eval p m s _ v hip0 hlt hlen hex).2
        (decide_eq_false (fun hne => hne hc))
  · intro s v hi
    have hex : execInstr m (p.instructions.getD m.getIp.toNat .nop)
        = jumpIf m (decide (and32 m.flags 3 = 0)) s := by rw [hi]; rfl
    constructor
    · intro hc hv hv1 hv2
      exact (step_jump_eval p m s _ v hip0 hlt hlen hex).1 (decide_eq_true hc) hv hv1 hv2
    · intro hc
      exact (step_jump_eval p m s _ v hip0 hlt hlen hex).2 (decide_eq_false hc)

/-- C7, witness: cmp on equal values from fresh memory; jge taken with
flags = 2 and not taken with flags = 0; jl taken with flags = 0 and not
taken with flags = 2. -/
theorem cmp_jge_jl_flags_witness :
    ((step ⟨[.cmp (.value 1) (.value 1)], 0⟩ Memory.new).memOf.map
        (fun m' => m'.flags)
      = some (or32 (if (1 : Int) = 1 then 1 else 0) (if (1 : Int) > 1 then 2 else 0)))
    ∧ ((step ⟨[.jge (.value 0)], 0⟩ { Memory.new with flags := 2 }).memOf.map
        (fun m' => m'.getIp) = some 0)
    ∧ ((step ⟨[.jge (.value 0)], 0⟩ Memory.new).memOf.map
        (fun m' => m'.getIp) = some (Memory.new.getIp + 1))
    ∧ ((step ⟨[.jl (.value 0)], 0⟩ Memory.new).memOf.map
        (fun m' => m'.getIp) = some 0)
    ∧ ((step ⟨[.jl (.value 0)], 0⟩ { Memory.new with flags := 2 }).memOf.map
        (fun m' => m'.getIp) = some (({ Memory.new with flags := 2 } : Memory).getIp + 1)) := by
  refine ⟨(cmp_jge_jl_flags _ Memory.new (by decide) (by decide) (by decide)).1
      (.value 1) (.value 1) 1 1 (by decide) rfl rfl,
    ((cmp_jge_jl_flags _ { Memory.new with flags := 2 } (by decide) (by decide)
      (by decide)).2.1 (.value 0) 0 (by decide)).1 (by decide) rfl (by decide) (by decide),
    ((cmp_jge_jl_flags _ Memory.new (by decide) (by decide) (by decide)).2.1
      (.value 0) 0 (by decide)).2 (by decide),
    ((cmp_jge_jl_flags _ Memory.new (by decide) (by decide) (by decide)).2.2
      (.value 0) 0 (by decide)).1 (by decide) rfl (by decide) (by decide),
    ((cmp_jge_jl_flags _ { Memory.new with flags := 2 } (by decide) (by decide)
      (by decide)).2.2 (.value 0) 0 (by decide)).2 (by decide)⟩

/-! The parser (src/parser/*.rs): numeric literals, operands, lines,
label gathering and resolution. -/

/-- Numeric value of one ASCII digit character, as in Rust
`char::to_digit`. -/
def digitVal (c : Char) : Option Nat :=
  if '0' ≤ c ∧ c ≤ '9' then some (c.toNat - 48)
  else if 'a' ≤ c ∧ c ≤ 'z' then some (c.toNat - 87)
  else if 'A' ≤ c ∧ c ≤ 'Z' then some (c.toNat - 55)
  else none

/-- Whether a character is a digit of the given radix. -/
def isRadixDigit (radix : Nat) (c : Char) : Bool :=
  match digitVal c with
  | some d => d < radix
  | none => false

/-- Accumulated value of a digit string in the given radix. -/
def digitsToNat (radix : Nat) (ds : List Char) : Nat :=
  ds.foldl (fun a c => a * radix + ((digitVal c).getD 0)) 0

/-- Modelled from Rust std's documented `i32::from_str_radix`: an optional
sign, then one or more digits of the radix; errors on an empty digit string,
an invalid digit, or a value outside the i32 range.  (Rust's incremental
checked arithmetic fails exactly when the final magnitude is out of range,
since the accumulated magnitude grows monotonically.) -/
def fromStrRadix (radix : Nat) (cs : List Char) : Except Unit Int :=
  let neg : Bool := cs.head? = some '-'
  let ds := if cs.head? = some '+' ∨ cs.head? = some '-' then cs.tail else cs
  if ds.isEmpty then .error ()
  else if ds.all (isRadixDigit radix) then
    let n := digitsToNat radix ds
    if neg then (if n ≤ 2 ^ 31 then .ok (-(n : Int)) else .error ())
    else (if n ≤ 2 ^ 31 - 1 then .ok (n : Int) else .error ())
  else .error ()

/-- `parse_value` (src/parser/unresolved_instruction.rs): the suffix forms
`|h`, `h`, `|b`, `b` are tried — in that order — before the `0x`/`-0x`
prefixes; anything else is decimal. -/
def parse_value (cs : List Char) : Except Unit Int :=
  if ['|', 'h'].isSuffixOf cs then fromStrRadix 16 cs.dropLast.dropLast
  else if ['h'].isSuffixOf cs then fromStrRadix 16 cs.dropLast
  else if ['|', 'b'].isSuffixOf cs then fromStrRadix 2 cs.dropLast.dropLast
  else if ['b'].isSuffixOf cs then fromStrRadix 2 cs.dropLast
  else if ['0', 'x'].isPrefixOf cs then fromStrRadix 16 (cs.drop 2)
  else if ['-', '0', 'x'].isPrefixOf cs then (fromStrRadix 16 (cs.drop 3)).map (fun i => -i)
  else fromStrRadix 10 cs

/-- `parse_register` (src/parser/register.rs): the case-sensitive register
name table. -/
def parse_register (s : String) : Option Register :=
  if s = "eax" then some .eax
  else if s = "ebx" then some .ebx
  else if s = "ecx" then some .ecx
  else if s = "edx" then some .edx
  else if s = "esi" then some .esi
  else if s = "edi" then some .edi
  else if s = "esp" then some .esp
  else if s = "ebp" then some .ebp
  else if s = "eip" then some .eip
  else if s = "r08" then some .r08
  else if s = "r09" then some .r09
  else if s = "r10" then some .r10
  else if s = "r11" then some .r11
  else if s = "r12" then some .r12
  else if s = "r13" then some .r13
  else if s = "r14" then some .r14
  else if s = "r15" then some .r15
  else none

/-- First character of a valid label: letter, `_`, `$` or `@`
(src/parser/parser.rs `is_valid_label`). -/
def isValidFirstChar (c : Char) : Bool :=
  c = '$' ∨ c = '@' ∨ c = '_' ∨ ('A' ≤ c ∧ c ≤ 'Z') ∨ ('a' ≤ c ∧ c ≤ 'z')

/-- Subsequent characters may also be digits. -/
def isValidChar (c : Char) : Bool :=
  if '0' ≤ c ∧ c ≤ '9' then true else isValidFirstChar c

/-- `is_valid_label` (src/parser/parser.rs). -/
def is_valid_label (s : String) : Bool :=
  match s.data with
  | [] => false
  | c :: rest => isValidFirstChar c && rest.all isValidChar

/-- Parse error kinds (src/parser/parser.rs `ParseErrorKind`). -/
inductive ParseErrorKind where
  | duplicateLabel (name : String)
  | undefinedLabel (name : String)
  | invalidInstruction (text : String)
  | missingOperand (index : Nat)
  | invalidOperand (text : String)
  | extraToken (text : String)
deriving DecidableEq, Repr

/-- A parse error with the index of the offending line
(src/parser/parser.rs `ParseError`). -/
structure ParseError where
  line_index : Nat
  error : ParseErrorKind
deriving DecidableEq, Repr

/-- Unresolved source operand: like `Source` but label references are still
names (src/parser/unresolved_instruction.rs `UnresolvedSource`). -/
inductive UnresolvedSource where
  | register (r : Register)
  | value (v : Int)
  | address (a : Int)
  | label (name : String)
deriving DecidableEq, Repr

/-- Unresolved instruction (src/parser/unresolved_instruction.rs). -/
inductive UnresolvedInstruction where
  | nop
  | int
  | mov (t : Target) (s : UnresolvedSource)
  | push (s : UnresolvedSource)
  | pop (t : Target)
  | pushf
  | popf
  | inc (t : Target)
  | dec (t : Target)
  | add (t : Target) (s : UnresolvedSource)
  | sub (t : Target) (s : UnresolvedSource)
  | mul (t : Target) (s : UnresolvedSource)
  | div (t : Target) (s : UnresolvedSource)
  | mod (s1 : UnresolvedSource) (s2 : UnresolvedSource)
  | rem (t : Target)
  | not (t : Target)
  | xor (t : Target) (s : UnresolvedSource)
  | or (t : Target) (s : UnresolvedSource)
  | and (t : Target) (s : UnresolvedSource)
  | shl (t : Target) (s : UnresolvedSource)
  | shr (t : Target) (s : UnresolvedSource)
  | cmp (s1 : UnresolvedSource) (s2 : UnresolvedSource)
  | jmp (s : UnresolvedSource)
  | call (s : UnresolvedSource)
  | ret
  | je (s : UnresolvedSource)
  | jne (s : UnresolvedSource)
  | jg (s : UnresolvedSource)
  | jge (s : UnresolvedSource)
  | jl (s : UnresolvedSource)
  | jle (s : UnresolvedSource)
  | prn (s : UnresolvedSource)
deriving DecidableEq, Repr

/-- Trim ASCII/Unicode whitespace from both ends (Rust `str::trim`). -/
def trimChars (cs : List Char) : List Char :=
  ((cs.dropWhile Char.isWhitespace).reverse.dropWhile Char.isWhitespace).reverse

/-- `parse_source` (src/parser/unresolved_instruction.rs): register name,
then bracketed address, then numeric literal, then label; number beats
label. -/
def parse_source (tokens : List String) (index : Nat) :
    Except ParseErrorKind UnresolvedSource :=
  match tokens.get? index with
  | none => .error (.missingOperand index)
  | some token =>
    match parse_register token with
    | some reg => .ok (.register reg)
    | none =>
      if ['['].isPrefixOf token.data && [']'].isSuffixOf token.data then
        match parse_value (trimChars (token.data.drop 1).dropLast) with
        | .ok value =>
          if 0 ≤ value then .ok (.address value)
          else .error (.invalidOperand token)
        | .error _ => .error (.invalidOperand token)
      else
        match parse_value token.data with
        | .ok value => .ok (.value value)
        | .error _ =>
          if is_valid_label token then .ok (.label token)
          else .error (.invalidOperand token)

/-- `parse_target`: a source that must be a register or an address. -/
def parse_target (tokens : List String) (index : Nat) :
    Except ParseErrorKind Target :=
  match parse_source tokens index with
  | .ok (.register reg) => .ok (.register reg)
  | .ok (.address addr) => .ok (.address addr)
  | .ok _ => .error (.invalidOperand (tokens.getD index ""))
  | .error e => .error e

/-- The nullary form of the `instr!` macro: one token, or `ExtraToken` on the
token right after the mnemonic. -/
def parseArity0 (tokens : List String) (r : UnresolvedInstruction) :
    Except ParseErrorKind UnresolvedInstruction :=
  if tokens.length = 1 then .ok r
  else .error (.extraToken (tokens.getD 1 ""))

/-- Arity check after parsing the operands: `arg_number` must be the last
token index, otherwise `ExtraToken` on the first surplus token. -/
def arityCheck (tokens : List String) (argn : Nat) (r : UnresolvedInstruction) :
    Except ParseErrorKind UnresolvedInstruction :=
  if argn = tokens.length - 1 then .ok r
  else .error (.extraToken (tokens.getD (argn + 1) ""))

def parseArity1S (tokens : List String) (mk : UnresolvedSource → UnresolvedInstruction) :
    Except ParseErrorKind UnresolvedInstruction := do
  let s ← parse_source tokens 1
  arityCheck tokens 1 (mk s)

def parseArity1T (tokens : List String) (mk : Target → UnresolvedInstruction) :
    Except ParseErrorKind UnresolvedInstruction := do
  let t ← parse_target tokens 1
  arityCheck tokens 1 (mk t)

def parseArity2TS (tokens : List String)
    (mk : Target → UnresolvedSource → UnresolvedInstruction) :
    Except ParseErrorKind UnresolvedInstruction := do
  let t ← parse_target tokens 1
  let s ← parse_source tokens 2
  arityCheck tokens 2 (mk t s)

def parseArity2SS (tokens : List String)
    (mk : UnresolvedSource → UnresolvedSource → UnresolvedInstruction) :
    Except ParseErrorKind UnresolvedInstruction := do
  let s1 ← parse_source tokens 1
  let s2 ← parse_source tokens 2
  arityCheck tokens 2 (mk s1 s2)

/-- `UnresolvedInstruction::parse` (src/parser/unresolved_instruction.rs):
dispatch on the mnemonic, parse the operands for its arity, reject surplus
tokens, otherwise `InvalidInstruction`.  (The Rust code indexes `tokens[0]`;
its only caller `parse_line` always passes a non-empty slice.) -/
def UnresolvedInstruction.parse (tokens : List String) :
    Except ParseErrorKind UnresolvedInstruction :=
  match tokens.head? with
  | Option.none => .error (.invalidInstruction "")
  | Option.some mnemonic =>
    if mnemonic = "nop" then parseArity0 tokens .nop
    else if mnemonic = "int" then parseArity0 tokens .int
    else if mnemonic = "mov" then parseArity2TS tokens .mov
    else if mnemonic = "push" then parseArity1S tokens .push
    else if mnemonic = "pop" then parseArity1T tokens .pop
    else if mnemonic = "pushf" then parseArity0 tokens .pushf
    else if mnemonic = "popf" then parseArity0 tokens .popf
    else if mnemonic = "inc" then parseArity1T tokens .inc
    else if mnemonic = "dec" then parseArity1T tokens .dec
    else if mnemonic = "add" then parseArity2TS tokens .add
    else if mnemonic = "sub" then parseArity2TS tokens .sub
    else if mnemonic = "mul" then parseArity2TS tokens .mul
    else if mnemonic = "div" then parseArity2TS tokens .div
    else if mnemonic = "mod" then parseArity2SS tokens .mod
    else if mnemonic = "rem" then parseArity1T tokens .rem
    else if mnemonic = "not" then parseArity1T tokens .not
    else if mnemonic = "xor" then parseArity2TS tokens .xor
    else if mnemonic = "or" then parseArity2TS tokens .or
    else if mnemonic = "and" then parseArity2TS tokens .and
    else if mnemonic = "shl" then parseArity2TS tokens .shl
    else if mnemonic = "shr" then parseArity2TS tokens .shr
    else if mnemonic = "cmp" then parseArity2SS tokens .cmp
    else if mnemonic = "jmp" then parseArity1S tokens .jmp
    else if mnemonic = "call" then parseArity1S tokens .call
    else if mnemonic = "ret" then parseArity0 tokens .ret
    else if mnemonic = "je" then parseArity1S tokens .je
    else if mnemonic = "jne" then parseArity1S tokens .jne
    else if mnemonic = "jg" then parseArity1S tokens .jg
    else if mnemonic = "jge" then parseArity1S tokens .jge
    else if mnemonic = "jl" then parseArity1S tokens .jl
    else if mnemonic = "jle" then parseArity1S tokens .jle
    else if mnemonic = "prn" then parseArity1S tokens .prn
    else .error (.invalidInstruction mnemonic)

/-- Per-line parse result (src/parser/line_parser.rs
`ParsedLineInstruction`). -/
inductive ParsedLineInstruction where
  | some (i : UnresolvedInstruction)
  | none
  | err (e : ParseErrorKind)
deriving DecidableEq, Repr

/-- A parsed line: its labels and at most one instruction
(src/parser/line_parser.rs `ParsedLine`). -/
structure ParsedLine where
  labels : List String
  instruction : ParsedLineInstruction
deriving DecidableEq, Repr

/-- Recursion of `parse_line`: leading `NAME:` tokens whose name is a valid
label become labels; the first other token starts the instruction. -/
def parse_line_aux : List String → List String → ParsedLine
  | [], labels => ⟨labels, .none⟩
  | token :: rest, labels =>
    if [':'].isSuffixOf token.data && is_valid_label (String.mk token.data.dropLast) then
      parse_line_aux rest (labels ++ [String.mk token.data.dropLast])
    else
      ⟨labels,
        match UnresolvedInstruction.parse (token :: rest) with
        | .ok i => .some i
        | .error e => .err e⟩

/-- `parse_line` (src/parser/line_parser.rs). -/
def parse_line (tokens : List String) : ParsedLine := parse_line_aux tokens []

/-- Inner loop of `gather_label_values`: insert this line's labels (at index
`idx`) into the label map, failing with `DuplicateLabel` at line `li` when a
name is already present. -/
def addLabels (li : Nat) (idx : Int) :
    List String → List (String × Int) → Except ParseError (List (String × Int))
  | [], acc => .ok acc
  | l :: ls, acc =>
    if (acc.lookup l).isSome then .error ⟨li, .duplicateLabel l⟩
    else addLabels li idx ls ((l, idx) :: acc)

/-- Outer loop of `gather_label_values`: walk the lines, mapping each label
to the current instruction counter; only lines that parsed to an instruction
advance the counter. -/
def gatherAux : List ParsedLine → List (String × Int) → Int → Nat →
    Except ParseError (List (String × Int))
  | [], acc, _, _ => .ok acc
  | line :: rest, acc, idx, li =>
    match addLabels li idx line.labels acc with
    | .error e => .error e
    | .ok acc' =>
      gatherAux rest acc'
        (match line.instruction with
          | .some _ => idx + 1
          | _ => idx) (li + 1)

/-- `gather_label_values` (src/parser/parser.rs). -/
def gather_label_values (lines : List ParsedLine) :
    Except ParseError (List (String × Int)) :=
  gatherAux lines [] 0 0

/-- The `resolve!` macro (src/parser/resolver.rs): replace a label operand
by the instruction index from the label map. -/
def resolveSource (labels : List (String × Int)) :
    UnresolvedSource → Except ParseErrorKind Source
  | .register r => .ok (.register r)
  | .value v => .ok (.value v)
  | .address a => .ok (.address a)
  | .label name =>
    match labels.lookup name with
    | Option.some v => .ok (.value v)
    | Option.none => .error (.undefinedLabel name)

/-- `resolve` (src/parser/resolver.rs). -/
def resolve (labels : List (String × Int)) :
    UnresolvedInstruction → Except ParseErrorKind Instruction
  | .nop => .ok .nop
  | .int => .ok .int
  | .mov t s => (resolveSource labels s).map (Instruction.mov t)
  | .push s => (resolveSource labels s).map Instruction.push
  | .pop t => .ok (.pop t)
  | .pushf => .ok .pushf
  | .popf => .ok .popf
  | .inc t => .ok (.inc t)
  | .dec t => .ok (.dec t)
  | .add t s => (resolveSource labels s).map (Instruction.add t)
  | .sub t s => (resolveSource labels s).map (Instruction.sub t)
  | .mul t s => (resolveSource labels s).map (Instruction.mul t)
  | .div t s => (resolveSource labels s).map (Instruction.div t)
  | .mod s1 s2 => do
    let r1 ← resolveSource labels s1
    let r2 ← resolveSource labels s2
    .ok (.mod r1 r2)
  | .rem t => .ok (.rem t)
  | .not t => .ok (.not t)
  | .xor t s => (resolveSource labels s).map (Instruction.xor t)
  | .or t s => (resolveSource labels s).map (Instruction.or t)
  | .and t s => (resolveSource labels s).map (Instruction.and t)
  | .shl t s => (resolveSource labels s).map (Instruction.shl t)
  | .shr t s => (resolveSource labels s).map (Instruction.shr t)
  | .cmp s1 s2 => do
    let r1 ← resolveSource labels s1
    let r2 ← resolveSource labels s2
    .ok (.cmp r1 r2)
  | .jmp s => (resolveSource labels s).map Instruction.jmp
  | .call s => (resolveSource labels s).map Instruction.call
  | .ret => .ok .ret
  | .je s => (resolveSource labels s).map Instruction.je
  | .jne s => (resolveSource labels s).map Instruction.jne
  | .jg s => (resolveSource labels s).map Instruction.jg
  | .jge s => (resolveSource labels s).map Instruction.jge
  | .jl s => (resolveSource labels s).map Instruction.jl
  | .jle s => (resolveSource labels s).map Instruction.jle
  | .prn s => (resolveSource labels s).map Instruction.prn

/-- The second pass of `parse` (src/parser/parser.rs): resolve each line's
instruction in order; the first error is reported with its line index. -/
def resolveAll (labels : List (String × Int)) :
    List ParsedLine → Nat → Except ParseError (List Instruction)
  | [], _ => .ok []
  | line :: rest, li =>
    match line.instruction with
    | .some u =>
      match resolve labels u with
      | .ok i =>
        match resolveAll labels rest (li + 1) with
        | .ok is => .ok (i :: is)
        | .error e => .error e
      | .error e => .error ⟨li, e⟩
    | .none => resolveAll labels rest (li + 1)
    | .err e => .error ⟨li, e⟩

/-- `parse` (src/parser/parser.rs): line-parse every token line, gather the
label map, resolve, and read the `start` label (default 0). -/
def parse (lines : List (List String)) : Except ParseError Program :=
  let parsed := lines.map parse_line
  match gather_label_values parsed with
  | .error e => .error e
  | .ok labels =>
    match resolveAll labels parsed 0 with
    | .error e => .error e
    | .ok instructions => .ok ⟨instructions, (labels.lookup "start").getD 0⟩

/-! The lexer (src/lexer.rs). -/

/-- Split a character list at every occurrence of a separator, keeping empty
segments. -/
def splitChar (sep : Char) : List Char → List (List Char)
  | [] => [[]]
  | c :: cs =>
    match splitChar sep cs with
    | [] => [[]]
    | h :: t => if c = sep then [] :: h :: t else (c :: h) :: t

/-- Rust `str::lines`: split on `\n`, drop the final empty piece produced by
a trailing newline, and strip one trailing `\r` from each line. -/
def rustLines (cs : List Char) : List (List Char) :=
  let parts := splitChar '\n' cs
  let parts := if parts.getLast? = Option.some ([] : List Char) then parts.dropLast else parts
  parts.map (fun l => if l.getLast? = Option.some '\r' then l.dropLast else l)

/-- The lexer's token separators: space, tab, comma. -/
def isSep (c : Char) : Bool := c = ' ' ∨ c = '\t' ∨ c = ','

/-- Split a line at every separator, keeping empty segments. -/
def splitSeps : List Char → List (List Char)
  | [] => [[]]
  | c :: cs =>
    match splitSeps cs with
    | [] => [[]]
    | h :: t => if isSep c then [] :: h :: t else (c :: h) :: t

/-- `lex` (src/lexer.rs): per line, truncate at the first `#`, split on
space/tab/comma dropping empty tokens, and substitute tokens that are keys
of the define map. -/
def lex (source : List Char) (defines : List (String × String)) :
    List (List String) :=
  (rustLines source).map (fun line =>
    let line := line.takeWhile (· ≠ '#')
    let toks := (splitSeps line).filter (fun t => 0 < t.length)
    toks.map (fun t =>
      match defines.lookup (String.mk t) with
      | Option.some v => v
      | Option.none => String.mk t))

/-! The preprocessor (src/preprocessor.rs). -/

/-- Preprocessing failures (src/preprocessor.rs `PreprocessingError`; the
io::Error payload of `FailedInclude` is dropped). -/
inductive PreprocessingError where
  | failedInclude (name : String)
  | duplicateDefine (name original_value new_value : String)
  | emptyDefine
  | defineWithoutValue (key : String)
deriving DecidableEq, Repr

/-- Index of the first occurrence of a substring (Rust `str::find`). -/
def findSubstr (pat : List Char) : List Char → Option Nat
  | [] => if pat.isPrefixOf ([] : List Char) then some 0 else none
  | c :: cs =>
    if pat.isPrefixOf (c :: cs) then some 0
    else (findSubstr pat cs).map (· + 1)

/-- Index of the first occurrence of a character. -/
def findChar (ch : Char) : List Char → Option Nat
  | [] => none
  | c :: cs => if c = ch then some 0 else (findChar ch cs).map (· + 1)

/-- Outcome of one `process_directive_line` pass, carrying the state σ
threaded through the replacement callback.  `panic` models the Rust
`String::drain` panic when the drained range runs past the end of the
string. -/
inductive DirOut (σ : Type) where
  | ok (src : List Char) (changed : Bool) (st : σ)
  | err (e : PreprocessingError)
  | panic

/-- `process_directive_line` (src/preprocessor.rs): find the directive
token anywhere in the source; the directive line runs to the next newline
(or the end of the source); compute the replacement, then
`drain(dd .. end_ix + 1)` — which panics when `end_ix + 1` exceeds the
source length, i.e. when the directive line is last and unterminated — and
splice the replacement in. -/
def processDirectiveLine {σ : Type} (src : List Char) (directive : List Char)
    (st : σ)
    (replaceLine : List Char → σ → Except PreprocessingError (List Char × σ)) :
    DirOut σ :=
  match findSubstr directive src with
  | Option.none => .ok src false st
  | Option.some dd =>
    let endIx :=
      match findChar '\n' (src.drop dd) with
      | Option.some ix => ix + dd
      | Option.none => src.length
    let directiveLine := trimChars ((src.take endIx).drop (dd + directive.length))
    match replaceLine directiveLine st with
    | .error e => .err e
    | .ok (replacement, st') =>
      if src.length < endIx + 1 then .panic
      else .ok ((src.take dd) ++ replacement ++ (src.drop (endIx + 1))) true st'

/-- `parse_define` (src/preprocessor.rs): `KEY` runs to the first space,
`VALUE` is the trimmed rest; empty line, missing value and repeated keys are
errors. -/
def parse_define (line : List Char) (defines : List (String × String)) :
    Except PreprocessingError (List (String × String)) :=
  if line.isEmpty then .error .emptyDefine
  else
    match findChar ' ' line with
    | Option.none => .error (.defineWithoutValue (String.mk line))
    | Option.some i =>
      let key := String.mk (line.take i)
      let value := String.mk (trimChars (line.drop i))
      match defines.lookup key with
      | Option.some original => .error (.duplicateDefine key original value)
      | Option.none => .ok (defines ++ [(key, value)])

/-- `process_includes` (src/preprocessor.rs), with the file system read
abstracted as the include-resolver function `inc` (`none` models a failed
read). -/
def process_includes (inc : String → Option String) (src : List Char) :
    DirOut Unit :=
  processDirectiveLine src ("%include".data) ()
    (fun line _ =>
      match inc (String.mk line) with
      | Option.some contents => .ok (contents.data, ())
      | Option.none => .error (.failedInclude (String.mk line)))

/-- `process_defines` (src/preprocessor.rs): the directive line is replaced
by a single newline. -/
def process_defines (src : List Char) (defines : List (String × String)) :
    DirOut (List (String × String)) :=
  processDirectiveLine src ("%define".data) defines
    (fun line ds => (parse_define line ds).map (fun ds' => (['\n'], ds')))

/-- Outcome of `preprocess`. -/
inductive PPOut where
  | ok (src : List Char) (defines : List (String × String))
  | err (e : PreprocessingError)
  | panic
  | fuelOut
deriving DecidableEq, Repr

/-- `preprocess` (src/preprocessor.rs): one include pass then one define
pass, repeated (with fuel; the Rust loop has none) until neither changes the
source. -/
def preprocess (inc : String → Option String) :
    Nat → List Char → List (String × String) → PPOut
  | 0, _, _ => .fuelOut
  | fuel + 1, src, defines =>
    match process_includes inc src with
    | .err e => .err e
    | .panic => .panic
    | .ok src1 anyInc _ =>
      match process_defines src1 defines with
      | .err e => .err e
      | .panic => .panic
      | .ok src2 anyDef ds' =>
        if anyInc = false ∧ anyDef = false then .ok src2 ds'
        else preprocess inc fuel src2 ds'

/-- Load errors (src/context.rs `LoadError`). -/
inductive LoadError where
  | preprocessingError (e : PreprocessingError)
  | parseError (e : ParseError)
deriving DecidableEq, Repr

/-- Outcome of `Context::load`. -/
inductive LoadOut where
  | ok (p : Program)
  | err (e : LoadError)
  | panic
  | fuelOut
deriving DecidableEq, Repr

/-- `Context::load` (src/context.rs): preprocess with an empty define map,
lex with the populated define map, parse. -/
def load (inc : String → Option String) (fuel : Nat) (source : String) :
    LoadOut :=
  match preprocess inc fuel source.data [] with
  | .err e => .err (.preprocessingError e)
  | .panic => .panic
  | .fuelOut => .fuelOut
  | .ok src defines =>
    match parse (lex src defines) with
    | .ok p => .ok p
    | .error e => .err (.parseError e)

/-! Helper lemmas about prefixes and suffixes of character lists. -/

lemma isSuffixOf_getLast {l cs : List Char}
    (h : (l.isSuffixOf cs) = true) (hne : l ≠ []) : cs.getLast? = l.getLast? := by
  rw [List.isSuffixOf_iff_suffix] at h
  obtain ⟨t, rfl⟩ := h
  exact List.getLast?_append_of_ne_nil _ hne

/-- Contrapositive form used to discharge the suffix branches of
`parse_value`. -/
lemma not_isSuffixOf_of_getLast_ne {cs : List Char} {x : Char}
    (hx : cs.getLast? ≠ some x) (l : List Char) (hne : l ≠ [])
    (hl : l.getLast? = some x) : ¬(l.isSuffixOf cs = true) :=
  fun hsuf => hx (by rw [isSuffixOf_getLast hsuf hne, hl])

/-- Shared helper: `i32::from_str_radix` succeeds on a non-empty all-digit
hex string whose value fits in i32. -/
lemma fromStrRadix_hex_digits (ds : List Char)
    (hne : ds ≠ []) (hdig : ∀ c ∈ ds, isRadixDigit 16 c = true)
    (hbound : digitsToNat 16 ds ≤ 2 ^ 31 - 1) :
    fromStrRadix 16 ds = .ok (digitsToNat 16 ds) := by
  have hhead : ¬(ds.head? = some '+' ∨ ds.head? = some '-') := by
    obtain ⟨d, rest, rfl⟩ := List.exists_cons_of_ne_nil hne
    intro hor
    have hd := hdig d (by simp)
    rcases hor with h | h <;> simp only [List.head?_cons, Option.some.injEq] at h <;>
      subst h <;> exact absurd hd (by decide)
  have hempty : ds.isEmpty = false := by
    cases ds
    · exact absurd rfl hne
    · rfl
  have hall : ds.all (isRadixDigit 16) = true := List.all_eq_true.mpr hdig
  simp only [fromStrRadix]
  rw [if_neg hhead, if_neg (by rw [hempty]; exact fun h => by cases h)]
  rw [if_pos hall]
  rw [if_neg (by rw [decide_eq_false (fun h => hhead (Or.inr h))]; exact fun h => by cases h)]
  rw [if_pos hbound]

/-- Shared helper: numeric hex-literal parsing of `0x...` and `-0x...`
tokens whose digits avoid the `b`/`h` suffix branches. -/
lemma parse_value_hex (ds : List Char)
    (hne : ds ≠ []) (hdig : ∀ c ∈ ds, isRadixDigit 16 c = true)
    (hb : ds.getLast? ≠ some 'b') (hh : ds.getLast? ≠ some 'h')
    (hbound : digitsToNat 16 ds ≤ 2 ^ 31 - 1) :
    parse_value ('0' :: 'x' :: ds) = .ok (digitsToNat 16 ds)
    ∧ parse_value ('-' :: '0' :: 'x' :: ds) = .ok (-(digitsToNat 16 ds : Int)) := by
  obtain ⟨d, rest, rfl⟩ := List.exists_cons_of_ne_nil hne
  have hl0 : ('0' :: 'x' :: d :: rest).getLast? = (d :: rest).getLast? := by
    rw [List.getLast?_cons_cons, List.getLast?_cons_cons]
  have hlm : ('-' :: '0' :: 'x' :: d :: rest).getLast? = (d :: rest).getLast? := by
    rw [List.getLast?_cons_cons, List.getLast?_cons_cons, List.getLast?_cons_cons]
  have hh0 : ('0' :: 'x' :: d :: rest).getLast? ≠ some 'h' := fun hcl => hh (hl0 ▸ hcl)
  have hb0 : ('0' :: 'x' :: d :: rest).getLast? ≠ some 'b' := fun hcl => hb (hl0 ▸ hcl)
  have hhm : ('-' :: '0' :: 'x' :: d :: rest).getLast? ≠ some 'h' := fun hcl => hh (hlm ▸ hcl)
  have hbm : ('-' :: '0' :: 'x' :: d :: rest).getLast? ≠ some 'b' := fun hcl => hb (hlm ▸ hcl)
  constructor
  · simp only [parse_value]
    rw [if_neg (not_isSuffixOf_of_getLast_ne hh0 ['|', 'h'] (by simp) rfl),
      if_neg (not_isSuffixOf_of_getLast_ne hh0 ['h'] (by simp) rfl),
      if_neg (not_isSuffixOf_of_getLast_ne hb0 ['|', 'b'] (by simp) rfl),
      if_neg (not_isSuffixOf_of_getLast_ne hb0 ['b'] (by simp) rfl),
      if_pos (by simp [List.isPrefixOf])]
    exact fromStrRadix_hex_digits _ hne hdig hbound
  · simp only [parse_value]
    rw [if_neg (not_isSuffixOf_of_getLast_ne hhm ['|', 'h'] (by simp) rfl),
      if_neg (not_isSuffixOf_of_getLast_ne hhm ['h'] (by simp) rfl),
      if_neg (not_isSuffixOf_of_getLast_ne hbm ['|', 'b'] (by simp) rfl),
      if_neg (not_isSuffixOf_of_getLast_ne hbm ['b'] (by simp) rfl),
      if_neg (by simp [List.isPrefixOf]),
      if_pos (by simp [List.isPrefixOf])]
    rw [show ('-' :: '0' :: 'x' :: d :: rest).drop 3 = d :: rest from rfl]
    rw [fromStrRadix_hex_digits _ hne hdig hbound]
    rfl

/-- Shared helper: a token whose first character is neither `e` nor `r` is
not a register name. -/
lemma parse_register_ne_head (c : Char) (cs : List Char)
    (hc : c ≠ 'e' ∧ c ≠ 'r') : parse_register (String.mk (c :: cs)) = none := by
  unfold parse_register
  rw [if_neg
    (show ¬(String.mk (c :: cs) = "eax") from fun h => by
      have h2 := congrArg String.data h
      injection h2 with h3 h4
      exact hc.1 h3),
    if_neg
    (show ¬(String.mk (c :: cs) = "ebx") from fun h => by
      have h2 := congrArg String.data h
      injection h2 with h3 h4
      exact hc.1 h3),
    if_neg
    (show ¬(String.mk (c :: cs) = "ecx") from fun h => by
      have h2 := congrArg String.data h
      injection h2 with h3 h4
      exact hc.1 h3),
    if_neg
    (show ¬(String.mk (c :: cs) = "edx") from fun h => by
      have h2 := congrArg String.data h
      injection h2 with h3 h4
      exact hc.1 h3),
    if_neg
    (show ¬(String.mk (c :: cs) = "esi") from fun h => by
      have h2 := congrArg String.data h
      injection h2 with h3 h4
      exact hc.1 h3),
    if_neg
    (show ¬(String.mk (c :: cs) = "edi") from fun h => by
      have h2 := congrArg String.data h
      injection h2 with h3 h4
      exact hc.1 h3),
    if_neg
    (show ¬(String.mk (c :: cs) = "esp") from fun h => by
      have h2 := congrArg String.data h
      injection h2 with h3 h4
      exact hc.1 h3),
    if_neg
    (show ¬(String.mk (c :: cs) = "ebp") from fun h => by
      have h2 := congrArg String.data h
      injection h2 with h3 h4
      exact hc.1 h3),
    if_neg
    (show ¬(String.mk (c :: cs) = "eip") from fun h => by
      have h2 := congrArg String.data h
      injection h2 with h3 h4
      exact hc.1 h3),
    if_neg
    (show ¬(String.mk (c :: cs) = "r08") from fun h => by
      have h2 := congrArg String.data h
      injection h2 with h3 h4
      exact hc.2 h3),
    if_neg
    (show ¬(String.mk (c :: cs) = "r09") from fun h => by
      have h2 := congrArg String.data h
      injection h2 with h3 h4
      exact hc.2 h3),
    if_neg
    (show ¬(String.mk (c :: cs) = "r10") from fun h => by
      have h2 := congrArg String.data h
      injection h2 with h3 h4
      exact hc.2 h3),
    if_neg
    (show ¬(String.mk (c :: cs) = "r11") from fun h => by
      have h2 := congrArg String.data h
      injection h2 with h3 h4
      exact hc.2 h3),
    if_neg
    (show ¬(String.mk (c :: cs) = "r12") from fun h => by
      have h2 := congrArg String.data h
      injection h2 with h3 h4
      exact hc.2 h3),
    if_neg
    (show ¬(String.mk (c :: cs) = "r13") from fun h => by
      have h2 := congrArg String.data h
      injection h2 with h3 h4
      exact hc.2 h3),
    if_neg
    (show ¬(String.mk (c :: cs) = "r14") from fun h => by
      have h2 := congrArg String.data h
      injection h2 with h3 h4
      exact hc.2 h3),
    if_neg
    (show ¬(String.mk (c :: cs) = "r15") from fun h => by
      have h2 := congrArg String.data h
      injection h2 with h3 h4
      exact hc.2 h3)]

/-- C8, counterexample.  The tokens `0x1b` and `0xab` — both of the claimed
form `0x` followed by hex digits — do not parse as hex immediates: the `b`
suffix branch of `parse_value` fires first and tries to read `0x1`/`0xa` as
binary, which fails, and operand parsing reports `InvalidOperand`. -/
theorem hex_suffix_counterexample :
    parse_value ("0x1b".data) = .error ()
    ∧ parse_source ["0x1b"] 0 = .error (.invalidOperand "0x1b")
    ∧ parse_source ["0xab"] 0 = .error (.invalidOperand "0xab") :=
  ⟨by decide, by decide, by decide⟩

/-- C8, amended.  For a token `0x` (optionally preceded by `-`) followed by
one or more hex digits whose LAST digit is neither `b` nor `h` and whose
value fits in i32, numeric parsing succeeds with the hexadecimal value, and
operand parsing yields that immediate.  (Tokens whose last digit is `b` or
`h` are instead consumed by the earlier suffix branches and fail.) -/
theorem hex_prefix_literals (ds : List Char)
    (hne : ds ≠ []) (hdig : ∀ c ∈ ds, isRadixDigit 16 c = true)
    (hb : ds.getLast? ≠ some 'b') (hh : ds.getLast? ≠ some 'h')
    (hbound : digitsToNat 16 ds ≤ 2 ^ 31 - 1) :
    parse_value ('0' :: 'x' :: ds) = .ok (digitsToNat 16 ds)
    ∧ parse_value ('-' :: '0' :: 'x' :: ds) = .ok (-(digitsToNat 16 ds : Int))
    ∧ parse_source [String.mk ('0' :: 'x' :: ds)] 0
      = .ok (.value (digitsToNat 16 ds)) := by
  obtain ⟨h1, h2⟩ := parse_value_hex ds hne hdig hb hh hbound
  refine ⟨h1, h2, ?_⟩
  have hreg : parse_register (String.mk ('0' :: 'x' :: ds)) = none :=
    parse_register_ne_head '0' ('x' :: ds) ⟨by decide, by decide⟩
  have hbr : (['['].isPrefixOf ('0' :: 'x' :: ds)
      && [']'].isSuffixOf ('0' :: 'x' :: ds)) = false := rfl
  simp only [parse_source, List.get?]
  rw [hreg]
  dsimp only
  rw [h1]
  rw [if_neg (show ¬_ from fun hcond => by rw [hbr] at hcond; cases hcond)]

/-- C8, witness for the amended theorem at the digit string `1a` (token
`0x1a`, the spec note's own example of number-vs-identifier priority). -/
theorem hex_prefix_literals_witness :
    parse_value ('0' :: 'x' :: ['1', 'a']) = .ok (digitsToNat 16 ['1', 'a'])
    ∧ parse_value ('-' :: '0' :: 'x' :: ['1', 'a'])
      = .ok (-(digitsToNat 16 ['1', 'a'] : Int))
    ∧ parse_source [String.mk ('0' :: 'x' :: ['1', 'a'])] 0
      = .ok (.value (digitsToNat 16 ['1', 'a'])) :=
  hex_prefix_literals ['1', 'a'] (by decide) (by decide) (by decide) (by decide)
    (by decide)

/-- C10.  A `%define` directive on an unterminated last line makes
`preprocess` panic instead of returning: `end_ix` falls back to the source
length when no newline follows the directive, and `drain(dd .. end_ix + 1)`
then runs one past the end of the string.  The same source with a trailing
newline is processed normally, so the panic is precisely the missing-newline
case. -/
theorem preprocess_unterminated_define_panics :
    preprocess (fun _ => none) 2 ("%define x 1".data) [] = .panic
    ∧ preprocess (fun _ => none) 2 ("%define x 1\n".data) []
      = .ok ("\n".data) [("x", "1")] :=
  ⟨by decide, by decide⟩

/-! C9 machinery: what `gather_label_values` guarantees about duplicate
labels. -/

/-- Default line used by `labelsAt`. -/
def emptyLine : ParsedLine := ⟨[], .none⟩

/-- The labels declared on line k. -/
def labelsAt (lines : List ParsedLine) (k : Nat) : List String :=
  (lines.getD k emptyLine).labels

lemma lookup_cons_isSome (l : String) (idx : Int) (acc : List (String × Int))
    (n : String) :
    ((((l, idx) :: acc).lookup n).isSome = true)
      ↔ (l = n ∨ (acc.lookup n).isSome = true) := by
  cases h : n == l with
  | true =>
    have he : n = l := eq_of_beq h
    simp only [List.lookup, h, Option.isSome_some]
    exact ⟨fun _ => Or.inl he.symm, fun _ => trivial⟩
  | false =>
    have hne : l ≠ n := fun he => by subst he; simp at h
    simp only [List.lookup, h]
    exact (or_iff_right hne).symm

lemma addLabels_ok_mem {li : Nat} {idx : Int} :
    ∀ {ls : List String} {acc acc' : List (String × Int)},
    addLabels li idx ls acc = .ok acc' →
    ∀ n, ((acc'.lookup n).isSome = true) ↔ (n ∈ ls ∨ (acc.lookup n).isSome = true)
  | [], acc, acc', h, n => by
    cases h
    simp
  | l :: ls, acc, acc', h, n => by
    unfold addLabels at h
    by_cases hocc : ((acc.lookup l).isSome = true)
    · rw [if_pos hocc] at h; cases h
    · rw [if_neg hocc] at h
      have ih := addLabels_ok_mem h n
      rw [ih, lookup_cons_isSome]
      constructor
      · rintro (hm | hl | hacc)
        · exact Or.inl (List.mem_cons_of_mem _ hm)
        · exact Or.inl (hl ▸ List.mem_cons_self _ _)
        · exact Or.inr hacc
      · rintro (hm | hacc)
        · rcases List.mem_cons.mp hm with h1 | h2
          · exact Or.inr (Or.inl h1.symm)
          · exact Or.inl h2
        · exact Or.inr (Or.inr hacc)

lemma addLabels_ok_fresh {li : Nat} {idx : Int} :
    ∀ {ls : List String} {acc acc' : List (String × Int)},
    addLabels li idx ls acc = .ok acc' →
    ∀ n ∈ ls, ¬((acc.lookup n).isSome = true)
  | [], _, _, _, n, hn => by simp at hn
  | l :: ls, acc, acc', h, n, hn => by
    unfold addLabels at h
    by_cases hocc : ((acc.lookup l).isSome = true)
    · rw [if_pos hocc] at h; cases h
    · rw [if_neg hocc] at h
      rcases List.mem_cons.mp hn with h1 | h2
      · subst h1; exact hocc
      · intro hacc
        exact addLabels_ok_fresh h n h2
          ((lookup_cons_isSome l idx acc n).mpr (Or.inr hacc))

lemma addLabels_err {li : Nat} {idx : Int} :
    ∀ {ls : List String} {acc : List (String × Int)} {k : Nat} {e : ParseErrorKind},
    addLabels li idx ls acc = .error ⟨k, e⟩ →
    k = li ∧ ∃ n, e = .duplicateLabel n ∧ n ∈ ls ∧
      (((acc.lookup n).isSome = true) ∨ ¬ls.Nodup)
  | [], _, _, _, h => by cases h
  | l :: ls, acc, k, e, h => by
    unfold addLabels at h
    by_cases hocc : ((acc.lookup l).isSome = true)
    · rw [if_pos hocc] at h
      cases h
      exact ⟨rfl, l, rfl, List.mem_cons_self _ _, Or.inl hocc⟩
    · rw [if_neg hocc] at h
      obtain ⟨hk, n, he, hmem, hdisj⟩ := addLabels_err h
      refine ⟨hk, n, he, List.mem_cons_of_mem _ hmem, ?_⟩
      rcases hdisj with hacc2 | hnd
      · rcases (lookup_cons_isSome l idx acc n).mp hacc2 with hl | hacc
        · exact Or.inr (fun hnd2 => (List.nodup_cons.mp hnd2).1 (hl ▸ hmem))
        · exact Or.inl hacc
      · exact Or.inr (fun hnd2 => hnd (List.nodup_cons.mp hnd2).2)

lemma gatherAux_ok_distinct :
    ∀ {lines : List ParsedLine} {acc : List (String × Int)} {idx : Int} {li : Nat}
    {res : List (String × Int)},
    gatherAux lines acc idx li = .ok res →
    (∀ n k, k < lines.length → n ∈ labelsAt lines k →
      ¬((acc.lookup n).isSome = true))
    ∧ (∀ n i j, i < j → j < lines.length →
      n ∈ labelsAt lines i → n ∈ labelsAt lines j → False)
  | [], acc, idx, li, res, h => by
    constructor
    · intro n k hk
      simp at hk
    · intro n i j hij hj
      simp at hj
  | L :: rest, acc, idx, li, res, h => by
    unfold gatherAux at h
    cases hadd : addLabels li idx L.labels acc with
    | error e => rw [hadd] at h; cases h
    | ok acc' =>
      rw [hadd] at h
      dsimp only at h
      have ih := gatherAux_ok_distinct h
      constructor
      · intro n k hk hmem
        cases k with
        | zero => exact addLabels_ok_fresh hadd n hmem
        | succ k' =>
          intro hacc
          have h2 : ¬((acc'.lookup n).isSome = true) :=
            ih.1 n k' (by simpa using hk) hmem
          exact h2 ((addLabels_ok_mem hadd n).mpr (Or.inr hacc))
      · intro n i j hij hj hmi hmj
        cases i with
        | zero =>
          cases j with
          | zero => omega
          | succ j' =>
            have h2 := ih.1 n j' (by simpa using hj) hmj
            exact h2 ((addLabels_ok_mem hadd n).mpr (Or.inl hmi))
        | succ i' =>
          cases j with
          | zero => omega
          | succ j' => exact ih.2 n i' j' (by omega) (by simpa using hj) hmi hmj

lemma gatherAux_err :
    ∀ {lines : List ParsedLine} {acc : List (String × Int)} {idx : Int} {li : Nat}
    {k : Nat} {e : ParseErrorKind},
    gatherAux lines acc idx li = .error ⟨k, e⟩ →
    ∃ j n, e = .duplicateLabel n ∧ k = li + j ∧ j < lines.length
      ∧ n ∈ labelsAt lines j
      ∧ (((acc.lookup n).isSome = true)
        ∨ (∃ i, i < j ∧ n ∈ labelsAt lines i)
        ∨ ¬(labelsAt lines j).Nodup)
  | [], _, _, _, _, _, h => by cases h
  | L :: rest, acc, idx, li, k, e, h => by
    unfold gatherAux at h
    cases hadd : addLabels li idx L.labels acc with
    | error err =>
      rw [hadd] at h
      dsimp only at h
      cases h
      obtain ⟨hk, n, he, hmem, hdisj⟩ := addLabels_err hadd
      refine ⟨0, n, he, by omega, by simp, hmem, ?_⟩
      rcases hdisj with ha | hnd
      · exact Or.inl ha
      · exact Or.inr (Or.inr hnd)
    | ok acc' =>
      rw [hadd] at h
      dsimp only at h
      obtain ⟨j', n, he, hk, hjlen, hmem, hdisj⟩ := gatherAux_err h
      refine ⟨j' + 1, n, he, by omega, by simpa using hjlen, hmem, ?_⟩
      rcases hdisj with ha | ⟨i, hi, hmi⟩ | hnd
      · rcases (addLabels_ok_mem hadd n).mp ha with hL | hacc
        · exact Or.inr (Or.inl ⟨0, by omega, hL⟩)
        · exact Or.inl hacc
      · exact Or.inr (Or.inl ⟨i + 1, by omega, hmi⟩)
      · exact Or.inr (Or.inr hnd)

/-- C9.  (1) Loading the source `"a: nop\na: nop"` fails with the parse
error `DuplicateLabel("a")` at line index 1.  (2) In general, whenever some
label name is declared on two lines i < j, `gather_label_values` returns a
`DuplicateLabel` error, and the reported line is the line of a second
occurrence of the reported name (the name occurs there, and it also occurs
on an earlier line or twice on that very line). -/
theorem duplicate_label_reporting :
    (load (fun _ => none) 1 "a: nop\na: nop"
      = .err (.parseError ⟨1, .duplicateLabel "a"⟩))
    ∧ (∀ (lines : List ParsedLine) (n : String) (i j : Nat),
        i < j → j < lines.length →
        n ∈ labelsAt lines i → n ∈ labelsAt lines j →
        ∃ (k : Nat) (n' : String),
          gather_label_values lines = .error ⟨k, .duplicateLabel n'⟩
          ∧ n' ∈ labelsAt lines k
          ∧ ((∃ i', i' < k ∧ n' ∈ labelsAt lines i')
            ∨ ¬(labelsAt lines k).Nodup)) := by
  constructor
  · decide
  · intro lines n i j hij hj hmi hmj
    cases hg : gatherAux lines [] 0 0 with
    | ok res =>
      exact absurd hmj (fun hmj2 =>
        (gatherAux_ok_distinct hg).2 n i j hij hj hmi hmj2)
    | error pe =>
      obtain ⟨pk, pe'⟩ := pe
      obtain ⟨j0, n', he, hk, hjlen, hmem, hdisj⟩ := gatherAux_err hg
      subst he
      have hj0 : j0 = pk := by omega
      subst hj0
      refine ⟨j0, n', hg, hmem, ?_⟩
      rcases hdisj with ha | ⟨i', hi', hmi'⟩ | hnd
      · simp [List.lookup] at ha
      · exact Or.inl ⟨i', hi', hmi'⟩
      · exact Or.inr hnd

/-- C9, witness: the general part applied to the parsed lines of the S6
source (two lines, each declaring the label `a` before a `nop`). -/
theorem duplicate_label_reporting_witness :
    (load (fun _ => none) 1 "a: nop\na: nop"
      = .err (.parseError ⟨1, .duplicateLabel "a"⟩))
    ∧ ∃ (k : Nat) (n' : String),
        gather_label_values [⟨["a"], .some .nop⟩, ⟨["a"], .some .nop⟩]
          = .error ⟨k, .duplicateLabel n'⟩
        ∧ n' ∈ labelsAt [⟨["a"], .some .nop⟩, ⟨["a"], .some .nop⟩] k
        ∧ ((∃ i', i' < k
              ∧ n' ∈ labelsAt [⟨["a"], .some .nop⟩, ⟨["a"], .some .nop⟩] i')
          ∨ ¬(labelsAt [⟨["a"], .some .nop⟩, ⟨["a"], .some .nop⟩] k).Nodup) :=
  ⟨duplicate_label_reporting.1,
    duplicate_label_reporting.2 [⟨["a"], .some .nop⟩, ⟨["a"], .some .nop⟩]
      "a" 0 1 (by decide) (by decide) (by decide) (by decide)⟩

end TinyVM


